import Mathlib

/-!
# Verification of the `planton` task polling engine

Shallow embedding of `src/factories/createPlanton.ts` (the variant with
`calculateDelay` / `calculateLimit` collaborators) and proofs about its
per-task polling loop, registration, validation and termination logic.

JavaScript numbers are modelled as `Rat` (rationals), which captures the
`Number.isInteger` / sign checks the code performs.  Caller-thrown errors
are opaque and identified by a tag.  A value returned by the caller's
`schedule` function is an arbitrary JavaScript value, modelled by
`ScheduleResult` (either an array of members, each a string or not, or a
non-array value).
-/

namespace Planton

/-- A JavaScript value appearing as a member of a schedule result:
either a string or some non-string value (identified by a tag so that
distinct junk values stay distinct). -/
inductive JsValue where
  | vstr (s : String)
  | other (tag : Nat)
deriving DecidableEq, Repr

/-- Is this member a string?  Mirrors `typeof taskInstruction === 'string'`. -/
def JsValue.isString : JsValue → Bool
  | .vstr _ => true
  | .other _ => false

/-- The raw value returned by the caller's `schedule` function: either an
array of JavaScript values or a non-array value (identified by a tag).
Mirrors the `Array.isArray(taskInstructions)` discrimination. -/
inductive ScheduleResult where
  | arr (xs : List JsValue)
  | notArr (tag : Nat)
deriving DecidableEq, Repr

/-- Errors that can travel through the engine.  `unexpectedState` mirrors
`UnexpectedStateError(message, code)`, `unexpectedTaskInstructions` mirrors
`UnexpectedTaskInstructionsError(taskName, taskInstructions)`, and
`external` is an opaque error thrown by a caller-supplied collaborator. -/
inductive JsError where
  | unexpectedState (message : String) (code : String)
  | unexpectedTaskInstructions (taskName : String) (instructions : ScheduleResult)
  | external (tag : Nat)
deriving DecidableEq, Repr

/-- An event published on the engine's emitter: `events.emit('task', ...)`
or `events.emit('error', ...)`. -/
inductive Event where
  | task (taskName : String) (instruction : String)
  | error (taskName : String) (error : JsError)
deriving DecidableEq, Repr

/-- Is this a `task` event? -/
def Event.isTask : Event → Bool
  | .task _ _ => true
  | .error _ _ => false

/-- The configuration object passed to `schedule`:
`{activeTaskInstructions, concurrency, limit, taskName}`. -/
structure ScheduleConfiguration where
  activeTaskInstructions : List String
  concurrency : Rat
  limit : Rat
  taskName : String
deriving DecidableEq, Repr

/-- The per-task fixed data after registration: the task name and the
(validated) concurrency setting. -/
structure TaskConfig where
  name : String
  concurrency : Rat
deriving DecidableEq, Repr

/-- The caller-supplied collaborators' behaviour for one round of the loop.
Each field gives the outcome of the corresponding `await`ed call, as a
function of the arguments the loop actually passes (`Except.error` models a
thrown exception / rejected promise). -/
structure RoundInput where
  delayResult : Nat → Except JsError Rat
  activeResult : String → Except JsError (List String)
  limitResult : Rat → List String → Except JsError Rat
  scheduleResult : ScheduleConfiguration → Except JsError ScheduleResult

/-- The outcome of one iteration of the `while (active)` body:
either an uncaught exception (`crashed`, which aborts the async loop), or a
completed round carrying the events emitted (in order), the list of
`schedule` invocations made (with their argument), and the new
`attemptNumber`. -/
inductive RoundResult where
  | crashed (e : JsError)
  | completed (events : List Event) (scheduleCalls : List ScheduleConfiguration)
      (newAttempt : Nat)
deriving DecidableEq, Repr

/-- The string members of a list of JavaScript values; on a list that is
all strings this is the list itself. -/
def extractStrings (xs : List JsValue) : List String :=
  xs.filterMap fun v => match v with | .vstr s => some s | .other _ => none

/-- Result validation, exactly as the code performs it after the
`try { schedule } catch` block, in the code's order:
1. `!Array.isArray(taskInstructions)` → emit error, replace with `[]`;
2. `taskInstructions.length > limit` → emit error, replace with `[]`;
3. any member with `typeof !== 'string'` → emit error, replace with `[]`.
Returns the emitted error events (in order) and the surviving list of
string instructions. -/
def validateTaskInstructions (taskName : String) (limit : Rat) (raw : ScheduleResult) :
    List Event × List String :=
  let step1 : List Event × List JsValue :=
    match raw with
    | .arr xs => ([], xs)
    | .notArr t =>
        ([Event.error taskName (JsError.unexpectedTaskInstructions taskName (.notArr t))], [])
  let step2 : List Event × List JsValue :=
    if (step1.2.length : Rat) > limit then
      (step1.1 ++
        [Event.error taskName (JsError.unexpectedTaskInstructions taskName (.arr step1.2))], [])
    else
      step1
  let step3 : List Event × List JsValue :=
    if step2.2.all JsValue.isString then
      step2
    else
      (step2.1 ++
        [Event.error taskName (JsError.unexpectedTaskInstructions taskName (.arr step2.2))], [])
  (step3.1, extractStrings step3.2)

/-- Validation as the spec's §4.2 step 7 words it: not-a-sequence, then
any-member-not-a-string, then over-limit, short-circuiting to "discard the
entire batch" on the first violation.  Modelled from the spec's words, to
be compared with `validateTaskInstructions` (the code's validation). -/
def validateSpecOrder (taskName : String) (limit : Rat) (raw : ScheduleResult) :
    List Event × List String :=
  match raw with
  | .notArr t =>
      ([Event.error taskName (JsError.unexpectedTaskInstructions taskName (.notArr t))], [])
  | .arr xs =>
      if ¬ xs.all JsValue.isString then
        ([Event.error taskName (JsError.unexpectedTaskInstructions taskName (.arr xs))], [])
      else if (xs.length : Rat) > limit then
        ([Event.error taskName (JsError.unexpectedTaskInstructions taskName (.arr xs))], [])
      else
        ([], extractStrings xs)

/-- One iteration of the `while (active)` loop body of `createPlanton`,
from the `calculateDelay` call through the `attemptNumber` bookkeeping,
assuming the task stays active throughout the round.  Faithful to the
source: the concurrency check `continue`s before `calculateLimit`; a
negative or non-integer limit emits an `UnexpectedStateError` and
`continue`s before `schedule`; a `schedule` throw is caught, reported, and
replaced by `[]`; the surviving instruction list drives the emission and
the `attemptNumber` update. -/
def runRound (cfg : TaskConfig) (attempt : Nat) (inp : RoundInput) : RoundResult :=
  match inp.delayResult attempt with
  | .error e => .crashed e
  | .ok _ =>
    match inp.activeResult cfg.name with
    | .error e => .crashed e
    | .ok active =>
      if (active.length : Rat) ≥ cfg.concurrency then
        .completed [] [] attempt
      else
        match inp.limitResult cfg.concurrency active with
        | .error e => .crashed e
        | .ok limit =>
          if limit < 0 then
            .completed
              [Event.error cfg.name
                (JsError.unexpectedState "Limit must be greater than 0."
                  "UNEXPECTED_STATE_ERROR")] [] attempt
          else if ¬ limit.isInt then
            .completed
              [Event.error cfg.name
                (JsError.unexpectedState "Limit must be an integer."
                  "UNEXPECTED_STATE_ERROR")] [] attempt
          else
            let scfg : ScheduleConfiguration :=
              ⟨active, cfg.concurrency, limit, cfg.name⟩
            let caught : List Event × ScheduleResult :=
              match inp.scheduleResult scfg with
              | .error e => ([Event.error cfg.name e], .arr [])
              | .ok r => ([], r)
            let validated := validateTaskInstructions cfg.name limit caught.2
            let events := caught.1 ++ validated.1
            if validated.2.length > 0 then
              .completed (events ++ validated.2.map fun s => Event.task cfg.name s)
                [scfg] 0
            else
              .completed events [scfg] (attempt + 1)

/-- Aggregate outcome of running several consecutive rounds: the events in
emission order, the final `attemptNumber`, and—if an uncaught exception
killed the loop—the error (after which no further round runs and the
termination deferred is never resolved). -/
structure LoopResult where
  events : List Event
  finalAttempt : Nat
  crashed : Option JsError
deriving DecidableEq, Repr

/-- Run the loop body over a list of per-round collaborator behaviours.
An uncaught exception stops the loop; subsequent inputs are ignored, no
further events are emitted. -/
def runRounds (cfg : TaskConfig) (attempt : Nat) : List RoundInput → LoopResult
  | [] => ⟨[], attempt, none⟩
  | inp :: rest =>
    match runRound cfg attempt inp with
    | .crashed e => ⟨[], attempt, some e⟩
    | .completed evs _ att' =>
      let r := runRounds cfg att' rest
      ⟨evs ++ r.events, r.finalAttempt, r.crashed⟩

/-! ## Helper lemmas about validation -/

@[simp] theorem extractStrings_nil : extractStrings [] = [] := rfl

@[simp] theorem extractStrings_cons_str (s : String) (xs : List JsValue) :
    extractStrings (.vstr s :: xs) = s :: extractStrings xs := rfl

@[simp] theorem extractStrings_cons_other (t : Nat) (xs : List JsValue) :
    extractStrings (.other t :: xs) = extractStrings xs := rfl

theorem extractStrings_of_all_strings (xs : List JsValue)
    (h : xs.all JsValue.isString = true) :
    (extractStrings xs).length = xs.length ∧
      extractStrings xs = xs.map fun v => match v with | .vstr s => s | .other _ => "" := by
  induction xs with
  | nil => simp
  | cons v rest ih =>
    simp only [List.all_cons, Bool.and_eq_true] at h
    obtain ⟨hv, hrest⟩ := h
    obtain ⟨ih1, ih2⟩ := ih hrest
    cases v with
    | vstr s => simp [ih1, ih2]
    | other t => simp [JsValue.isString] at hv

/-- Complete characterization of the code's validation, assuming the limit
has already passed its own validation (`0 ≤ limit`): a valid array of
strings within the limit survives untouched; any violation emits exactly
one `UnexpectedTaskInstructionsError` event carrying the raw result and
discards the entire batch. -/
theorem validate_cases (taskName : String) (limit : Rat) (raw : ScheduleResult)
    (h : 0 ≤ limit) :
    (∃ xs, raw = .arr xs ∧ xs.all JsValue.isString = true ∧ (xs.length : Rat) ≤ limit ∧
        validateTaskInstructions taskName limit raw = ([], extractStrings xs)) ∨
      validateTaskInstructions taskName limit raw =
        ([Event.error taskName (JsError.unexpectedTaskInstructions taskName raw)], []) := by
  cases raw with
  | notArr t =>
    right
    have hlim : ¬ ((0 : Rat) > limit) := not_lt.mpr h
    simp [validateTaskInstructions, extractStrings, hlim]
  | arr xs =>
    by_cases hlen : (xs.length : Rat) > limit
    · right
      simp [validateTaskInstructions, extractStrings, hlen]
    · by_cases hstr : xs.all JsValue.isString
      · left
        exact ⟨xs, rfl, hstr, not_lt.mp hlen, by simp [validateTaskInstructions, hlen, hstr]⟩
      · right
        simp [validateTaskInstructions, extractStrings, hlen, hstr]

/-- The code's validation (over-limit checked before member types) is
extensionally equal to the spec's stated order (member types before
over-limit): both emit the same single error event carrying the raw
result and both discard the entire batch, so the orders are
observationally indistinguishable. -/
theorem validate_eq_specOrder (taskName : String) (limit : Rat) (raw : ScheduleResult)
    (h : 0 ≤ limit) :
    validateTaskInstructions taskName limit raw = validateSpecOrder taskName limit raw := by
  cases raw with
  | notArr t =>
    have hlim : ¬ ((0 : Rat) > limit) := not_lt.mpr h
    simp [validateTaskInstructions, validateSpecOrder, hlim]
  | arr xs =>
    by_cases hstr : xs.all JsValue.isString
    · by_cases hlen : (xs.length : Rat) > limit
      · simp [validateTaskInstructions, validateSpecOrder, hstr, hlen]
      · simp [validateTaskInstructions, validateSpecOrder, hstr, hlen]
    · by_cases hlen : (xs.length : Rat) > limit
      · simp [validateTaskInstructions, validateSpecOrder, hstr, hlen]
      · simp [validateTaskInstructions, validateSpecOrder, hstr, hlen]

theorem validate_empty (taskName : String) (limit : Rat) (h : 0 ≤ limit) :
    validateTaskInstructions taskName limit (.arr []) = ([], []) := by
  have hlim : ¬ ((0 : Rat) > limit) := not_lt.mpr h
  simp [validateTaskInstructions, extractStrings, hlim]

theorem validate_no_task_events (taskName : String) (limit : Rat) (raw : ScheduleResult) :
    (validateTaskInstructions taskName limit raw).1.any Event.isTask = false := by
  cases raw with
  | notArr t =>
    simp only [validateTaskInstructions]
    split <;> split <;> simp [Event.isTask]
  | arr xs =>
    simp only [validateTaskInstructions]
    split <;> split <;> simp [Event.isTask]

/-! ## Round characterization -/

/-- Every completed round falls into exactly one of four shapes:
a concurrency-skipped round, an invalid-limit round, a schedule-throw
round, or a schedule-result round (valid or discarded).  This is the
master case analysis of the loop body used by the claim theorems. -/
theorem runRound_cases (cfg : TaskConfig) (attempt : Nat) (inp : RoundInput)
    (evs : List Event) (calls : List ScheduleConfiguration) (att' : Nat)
    (h : runRound cfg attempt inp = .completed evs calls att') :
    (∃ d active, inp.delayResult attempt = .ok d ∧
        inp.activeResult cfg.name = .ok active ∧
        (active.length : Rat) ≥ cfg.concurrency ∧
        evs = [] ∧ calls = [] ∧ att' = attempt) ∨
    (∃ d active limit msg, inp.delayResult attempt = .ok d ∧
        inp.activeResult cfg.name = .ok active ∧
        ¬ (active.length : Rat) ≥ cfg.concurrency ∧
        inp.limitResult cfg.concurrency active = .ok limit ∧
        (limit < 0 ∨ ¬ limit.isInt = true) ∧
        evs = [Event.error cfg.name (JsError.unexpectedState msg "UNEXPECTED_STATE_ERROR")] ∧
        calls = [] ∧ att' = attempt) ∨
    (∃ d active limit, inp.delayResult attempt = .ok d ∧
        inp.activeResult cfg.name = .ok active ∧
        ¬ (active.length : Rat) ≥ cfg.concurrency ∧
        inp.limitResult cfg.concurrency active = .ok limit ∧
        0 ≤ limit ∧ limit.isInt = true ∧
        calls = [⟨active, cfg.concurrency, limit, cfg.name⟩] ∧
        ((∃ e, inp.scheduleResult ⟨active, cfg.concurrency, limit, cfg.name⟩ = .error e ∧
            evs = [Event.error cfg.name e] ∧ att' = attempt + 1) ∨
         (∃ raw, inp.scheduleResult ⟨active, cfg.concurrency, limit, cfg.name⟩ = .ok raw ∧
            ((validateTaskInstructions cfg.name limit raw).2 ≠ [] ∧
                evs = (validateTaskInstructions cfg.name limit raw).1 ++
                  ((validateTaskInstructions cfg.name limit raw).2.map
                    fun s => Event.task cfg.name s) ∧
                att' = 0 ∨
              (validateTaskInstructions cfg.name limit raw).2 = [] ∧
                evs = (validateTaskInstructions cfg.name limit raw).1 ∧
                att' = attempt + 1)))) := by
  unfold runRound at h
  cases hd : inp.delayResult attempt with
  | error e => rw [hd] at h; exact absurd h (by simp)
  | ok d =>
  rw [hd] at h
  dsimp only at h
  cases ha : inp.activeResult cfg.name with
  | error e => rw [ha] at h; exact absurd h (by simp)
  | ok active =>
  rw [ha] at h
  dsimp only at h
  by_cases hskip : (active.length : Rat) ≥ cfg.concurrency
  · rw [if_pos hskip] at h
    simp only [RoundResult.completed.injEq] at h
    obtain ⟨rfl, rfl, rfl⟩ := h
    exact Or.inl ⟨d, active, rfl, rfl, hskip, rfl, rfl, rfl⟩
  · rw [if_neg hskip] at h
    cases hl : inp.limitResult cfg.concurrency active with
    | error e => rw [hl] at h; exact absurd h (by simp)
    | ok limit =>
    rw [hl] at h
    dsimp only at h
    by_cases hneg : limit < 0
    · rw [if_pos hneg] at h
      simp only [RoundResult.completed.injEq] at h
      obtain ⟨rfl, rfl, rfl⟩ := h
      exact Or.inr (Or.inl ⟨d, active, limit, _, rfl, rfl, hskip, hl, Or.inl hneg,
        rfl, rfl, rfl⟩)
    · rw [if_neg hneg] at h
      by_cases hint : limit.isInt = true
      · rw [if_neg (by simp [hint])] at h
        cases hs : inp.scheduleResult ⟨active, cfg.concurrency, limit, cfg.name⟩ with
        | error e =>
          rw [hs] at h
          have hv := validate_empty cfg.name limit (not_lt.mp hneg)
          simp only [hv] at h
          simp only [List.length_nil, gt_iff_lt, lt_self_iff_false, if_false,
            List.append_nil, RoundResult.completed.injEq] at h
          obtain ⟨rfl, rfl, rfl⟩ := h
          refine Or.inr (Or.inr ⟨d, active, limit, rfl, rfl, hskip, hl,
            not_lt.mp hneg, hint, rfl, Or.inl ⟨e, hs, by simp, rfl⟩⟩)
        | ok raw =>
          rw [hs] at h
          by_cases hne : (validateTaskInstructions cfg.name limit raw).2.length > 0
          · rw [if_pos hne] at h
            simp only [List.nil_append, RoundResult.completed.injEq] at h
            obtain ⟨rfl, rfl, rfl⟩ := h
            refine Or.inr (Or.inr ⟨d, active, limit, rfl, rfl, hskip, hl,
              not_lt.mp hneg, hint, rfl, Or.inr ⟨raw, hs, Or.inl
                ⟨List.length_pos.mp hne, rfl, rfl⟩⟩⟩)
          · rw [if_neg hne] at h
            simp only [List.nil_append, RoundResult.completed.injEq] at h
            obtain ⟨rfl, rfl, rfl⟩ := h
            refine Or.inr (Or.inr ⟨d, active, limit, rfl, rfl, hskip, hl,
              not_lt.mp hneg, hint, rfl, Or.inr ⟨raw, hs, Or.inr
                ⟨by simpa using hne, rfl, rfl⟩⟩⟩)
      · rw [if_pos (by simp [hint])] at h
        simp only [RoundResult.completed.injEq] at h
        obtain ⟨rfl, rfl, rfl⟩ := h
        exact Or.inr (Or.inl ⟨d, active, limit, _, rfl, rfl, hskip, hl, Or.inr hint,
          rfl, rfl, rfl⟩)

/-! ## Concrete example inputs used by witnesses and counterexamples -/

/-- A round in which the active-instruction list already fills the
concurrency ceiling (one active instruction, concurrency 1). -/
def skipInput : RoundInput :=
  ⟨fun _ => .ok 10, fun _ => .ok ["x"], fun _ _ => .ok 0, fun _ => .ok (.arr [])⟩

/-- A round in which `schedule` throws an opaque error. -/
def throwInput : RoundInput :=
  ⟨fun _ => .ok 10, fun _ => .ok [], fun _ _ => .ok 1, fun _ => .error (.external 42)⟩

/-- A round in which `calculateLimit` returns `-1`. -/
def negLimitInput : RoundInput :=
  ⟨fun _ => .ok 10, fun _ => .ok [], fun _ _ => .ok (-1), fun _ => .ok (.arr [])⟩

/-- Scenario C of the spec: `schedule` returns `['a', 'b']` with limit 2. -/
def scenarioCInput : RoundInput :=
  ⟨fun _ => .ok 10, fun _ => .ok [], fun _ _ => .ok 2,
   fun _ => .ok (.arr [.vstr "a", .vstr "b"])⟩

/-! ## Claim theorems -/

/-- C1: in any round whose fetched active instruction list has length at
least the task's concurrency, `schedule` is not invoked (no schedule call
recorded), no event is emitted, `attemptNumber` is unchanged, and the loop
proceeds to the next round's delay step exactly as if the round had not
happened (the round is skipped, not the loop exited). -/
theorem concurrency_skip (cfg : TaskConfig) (attempt : Nat) (inp : RoundInput)
    (rest : List RoundInput) (d : Rat) (active : List String)
    (hd : inp.delayResult attempt = .ok d)
    (ha : inp.activeResult cfg.name = .ok active)
    (hskip : (active.length : Rat) ≥ cfg.concurrency) :
    runRound cfg attempt inp = .completed [] [] attempt ∧
      runRounds cfg attempt (inp :: rest) = runRounds cfg attempt rest := by
  have h1 : runRound cfg attempt inp = .completed [] [] attempt := by
    unfold runRound
    rw [hd]
    dsimp only
    rw [ha]
    dsimp only
    rw [if_pos hskip]
  exact ⟨h1, by simp [runRounds, h1]⟩

/-- C1 witness: the skip theorem applied at a concrete round with one
active instruction and concurrency 1. -/
theorem concurrency_skip_witness :
    ((["x"] : List String).length : Rat) ≥ (1 : Rat) ∧
      (runRound ⟨"foo", 1⟩ 5 skipInput = .completed [] [] 5 ∧
        runRounds ⟨"foo", 1⟩ 5 [skipInput] = runRounds ⟨"foo", 1⟩ 5 []) :=
  ⟨by decide, concurrency_skip ⟨"foo", 1⟩ 5 skipInput [] 10 ["x"] rfl rfl (by decide)⟩

/-- C2 counterexample: a round skipped by the concurrency check emits zero
`TaskEvent`s, yet `attemptNumber` stays 5 instead of incrementing to 6 —
so "in every other round it is incremented by exactly 1" is false as
stated. -/
theorem attempt_bookkeeping_cex :
    runRound ⟨"foo", 1⟩ 5 skipInput = .completed [] [] 5 ∧ (5 : Nat) ≠ 5 + 1 :=
  ⟨by decide, by decide⟩

theorem any_isTask_map (n : String) (l : List String) (hne : l ≠ []) :
    (l.map fun s => Event.task n s).any Event.isTask = true := by
  cases l with
  | nil => exact absurd rfl hne
  | cons s rest => simp [Event.isTask]

/-- C2 (amended): in every completed round, `attemptNumber` resets to 0 iff
the round emits at least one `TaskEvent`; it increments by exactly 1 in
every other round in which `schedule` was invoked; rounds that skip before
the `schedule` invocation (concurrency check or invalid limit) leave it
unchanged and emit no `TaskEvent`. -/
theorem attempt_bookkeeping (cfg : TaskConfig) (attempt : Nat) (inp : RoundInput)
    (evs : List Event) (calls : List ScheduleConfiguration) (att' : Nat)
    (h : runRound cfg attempt inp = .completed evs calls att') :
    (evs.any Event.isTask = true → att' = 0 ∧ calls ≠ []) ∧
      (evs.any Event.isTask = false → calls ≠ [] → att' = attempt + 1) ∧
      (calls = [] → att' = attempt ∧ evs.any Event.isTask = false) := by
  rcases runRound_cases cfg attempt inp evs calls att' h with
    ⟨d, active, _, _, _, rfl, rfl, rfl⟩ |
    ⟨d, active, limit, msg, _, _, _, _, _, rfl, rfl, rfl⟩ |
    ⟨d, active, limit, _, _, _, _, _, _, rfl,
      ⟨e, _, rfl, rfl⟩ | ⟨raw, _, ⟨hne, rfl, rfl⟩ | ⟨hemp, rfl, rfl⟩⟩⟩
  · exact ⟨by simp, by simp, fun _ => ⟨rfl, by simp⟩⟩
  · exact ⟨by simp [Event.isTask], by simp, fun _ => ⟨rfl, by simp [Event.isTask]⟩⟩
  · exact ⟨by simp [Event.isTask], fun _ _ => rfl, by simp⟩
  · refine ⟨fun _ => ⟨rfl, by simp⟩, fun hfalse _ => ?_, by simp⟩
    exfalso
    rw [List.any_append, any_isTask_map cfg.name _ hne] at hfalse
    simp at hfalse
  · refine ⟨?_, fun _ _ => rfl, by simp⟩
    intro htrue
    rw [validate_no_task_events] at htrue
    exact absurd htrue (by simp)

/-- C2 witness: the amended bookkeeping theorem applied at a concrete
skipped round (attemptNumber 5 stays 5, no task events emitted). -/
theorem attempt_bookkeeping_witness :
    runRound ⟨"foo", 1⟩ 5 skipInput = .completed [] [] 5 ∧
      ((5 : Nat) = 5 ∧ ([] : List Event).any Event.isTask = false) :=
  ⟨by decide, (attempt_bookkeeping ⟨"foo", 1⟩ 5 skipInput [] [] 5 (by decide)).2.2 rfl⟩

/-- C3: the result of `schedule` is validated with the same observable
outcome as the spec's stated order (not-a-sequence, then non-string
members, then over-limit, short-circuiting): the code's validation is
extensionally equal to the spec-order validation; any violation yields
exactly one `ErrorEvent` (carrying the raw result) and an empty surviving
batch; and a violating round emits that single `ErrorEvent`, zero
`TaskEvent`s, records the batch as empty and increments `attemptNumber`
(never partially applied). -/
theorem validation_order_and_discard (taskName : String) (limit : Rat)
    (raw : ScheduleResult) (h : 0 ≤ limit) :
    validateTaskInstructions taskName limit raw = validateSpecOrder taskName limit raw ∧
      ((validateTaskInstructions taskName limit raw).1 ≠ [] →
        validateTaskInstructions taskName limit raw =
          ([Event.error taskName (JsError.unexpectedTaskInstructions taskName raw)], [])) ∧
      (∀ cfg attempt inp d active,
        cfg.name = taskName →
        inp.delayResult attempt = .ok d →
        inp.activeResult cfg.name = .ok active →
        ¬ (active.length : Rat) ≥ cfg.concurrency →
        inp.limitResult cfg.concurrency active = .ok limit →
        limit.isInt = true →
        inp.scheduleResult ⟨active, cfg.concurrency, limit, cfg.name⟩ = .ok raw →
        (validateTaskInstructions taskName limit raw).1 ≠ [] →
        runRound cfg attempt inp =
          .completed [Event.error taskName (JsError.unexpectedTaskInstructions taskName raw)]
            [⟨active, cfg.concurrency, limit, cfg.name⟩] (attempt + 1)) := by
  refine ⟨validate_eq_specOrder taskName limit raw h, fun hbad => ?_, ?_⟩
  · rcases validate_cases taskName limit raw h with ⟨xs, rfl, _, _, hv⟩ | hv
    · rw [hv] at hbad; exact absurd rfl hbad
    · exact hv
  · intro cfg attempt inp d active hn hd ha hskip hl hint hs hbad
    subst hn
    have hv : validateTaskInstructions cfg.name limit raw =
        ([Event.error cfg.name (JsError.unexpectedTaskInstructions cfg.name raw)], []) := by
      rcases validate_cases cfg.name limit raw h with ⟨xs, rfl, _, _, hv⟩ | hv
      · rw [hv] at hbad; exact absurd rfl hbad
      · exact hv
    unfold runRound
    rw [hd]
    dsimp only
    rw [ha]
    dsimp only
    rw [if_neg hskip, hl]
    dsimp only
    rw [if_neg (not_lt.mpr h), if_neg (by simp [hint]), hs]
    dsimp only
    rw [hv]
    simp

/-- C3 witness: the validation theorem applied to a non-array result with
limit 1. -/
theorem validation_order_and_discard_witness :
    (0 : Rat) ≤ 1 ∧
      validateTaskInstructions "foo" 1 (.notArr 0) = validateSpecOrder "foo" 1 (.notArr 0) :=
  ⟨by decide, (validation_order_and_discard "foo" 1 (.notArr 0) (by decide)).1⟩

/-- C4: if `schedule` throws an error `e` in a round, the round emits
exactly one `ErrorEvent` `{taskName, error: e}`, the result is bookkept as
an empty instruction list (so `attemptNumber` increments by 1), and the
loop continues with the subsequent rounds (same task, same collaborators,
next `attemptNumber` fed to `calculateDelay`). -/
theorem schedule_throw_reported (cfg : TaskConfig) (attempt : Nat) (inp : RoundInput)
    (rest : List RoundInput) (d : Rat) (active : List String) (limit : Rat) (e : JsError)
    (hd : inp.delayResult attempt = .ok d)
    (ha : inp.activeResult cfg.name = .ok active)
    (hskip : ¬ (active.length : Rat) ≥ cfg.concurrency)
    (hl : inp.limitResult cfg.concurrency active = .ok limit)
    (h0 : 0 ≤ limit) (hint : limit.isInt = true)
    (hs : inp.scheduleResult ⟨active, cfg.concurrency, limit, cfg.name⟩ = .error e) :
    runRound cfg attempt inp =
      .completed [Event.error cfg.name e]
        [⟨active, cfg.concurrency, limit, cfg.name⟩] (attempt + 1) ∧
      runRounds cfg attempt (inp :: rest) =
        ⟨Event.error cfg.name e :: (runRounds cfg (attempt + 1) rest).events,
          (runRounds cfg (attempt + 1) rest).finalAttempt,
          (runRounds cfg (attempt + 1) rest).crashed⟩ := by
  have h1 : runRound cfg attempt inp =
      .completed [Event.error cfg.name e]
        [⟨active, cfg.concurrency, limit, cfg.name⟩] (attempt + 1) := by
    unfold runRound
    rw [hd]
    dsimp only
    rw [ha]
    dsimp only
    rw [if_neg hskip, hl]
    dsimp only
    rw [if_neg (not_lt.mpr h0), if_neg (by simp [hint]), hs]
    dsimp only
    rw [validate_empty cfg.name limit h0]
    simp
  exact ⟨h1, by simp [runRounds, h1]⟩

/-- C4 witness: the schedule-throw theorem applied at a concrete round
whose `schedule` rejects with an opaque error (tag 42). -/
theorem schedule_throw_reported_witness :
    throwInput.scheduleResult ⟨[], 1, 1, "foo"⟩ = .error (.external 42) ∧
      runRound ⟨"foo", 1⟩ 3 throwInput =
        .completed [Event.error "foo" (.external 42)] [⟨[], 1, 1, "foo"⟩] 4 :=
  ⟨rfl, (schedule_throw_reported ⟨"foo", 1⟩ 3 throwInput [] 10 [] 1 (.external 42)
    rfl rfl (by decide) rfl (by decide) (by decide) rfl).1⟩

/-- C5: for a round that passes the concurrency check, a non-integer or
negative `calculateLimit` result makes the round emit an
`UnexpectedStateError` event and skip `schedule`; and every recorded
`schedule` invocation carries a `limit` equal to the value
`calculateLimit` returned for that round's concurrency and fetched active
instructions, a non-negative integer. -/
theorem limit_validation (cfg : TaskConfig) (attempt : Nat) (inp : RoundInput) :
    (∀ d active limit, inp.delayResult attempt = .ok d →
        inp.activeResult cfg.name = .ok active →
        ¬ (active.length : Rat) ≥ cfg.concurrency →
        inp.limitResult cfg.concurrency active = .ok limit →
        (limit < 0 ∨ ¬ limit.isInt = true) →
        ∃ msg, runRound cfg attempt inp =
          .completed [Event.error cfg.name (.unexpectedState msg "UNEXPECTED_STATE_ERROR")]
            [] attempt) ∧
      (∀ evs calls att' c, runRound cfg attempt inp = .completed evs calls att' →
        c ∈ calls →
        ∃ active, inp.activeResult cfg.name = .ok active ∧
          inp.limitResult cfg.concurrency active = .ok c.limit ∧
          0 ≤ c.limit ∧ c.limit.isInt = true ∧
          c = ⟨active, cfg.concurrency, c.limit, cfg.name⟩) := by
  constructor
  · intro d active limit hd ha hskip hl hbad
    by_cases hneg : limit < 0
    · refine ⟨"Limit must be greater than 0.", ?_⟩
      unfold runRound
      rw [hd]
      dsimp only
      rw [ha]
      dsimp only
      rw [if_neg hskip, hl]
      dsimp only
      rw [if_pos hneg]
    · rcases hbad with hbad | hbad
      · exact absurd hbad hneg
      · refine ⟨"Limit must be an integer.", ?_⟩
        unfold runRound
        rw [hd]
        dsimp only
        rw [ha]
        dsimp only
        rw [if_neg hskip, hl]
        dsimp only
        rw [if_neg hneg, if_pos (by simp [hbad])]
  · intro evs calls att' c h hc
    rcases runRound_cases cfg attempt inp evs calls att' h with
      ⟨d, active, _, _, _, _, rfl, _⟩ |
      ⟨d, active, limit, msg, _, _, _, _, _, _, rfl, _⟩ |
      ⟨d, active, limit, _, ha, hskip, hl, h0, hint, rfl, _⟩
    · exact absurd hc (List.not_mem_nil c)
    · exact absurd hc (List.not_mem_nil c)
    · rw [List.mem_singleton] at hc
      subst hc
      exact ⟨active, ha, hl, h0, hint, rfl⟩

/-- C5 witness: the limit-validation theorem applied at a concrete round
whose `calculateLimit` returns -1. -/
theorem limit_validation_witness :
    ∃ msg, runRound ⟨"foo", 1⟩ 3 negLimitInput =
      .completed [Event.error "foo" (.unexpectedState msg "UNEXPECTED_STATE_ERROR")] [] 3 :=
  (limit_validation ⟨"foo", 1⟩ 3 negLimitInput).1 10 [] (-1) rfl rfl (by decide) rfl
    (Or.inl (by decide))

/-- C9: a round whose `schedule` returns a valid non-empty array of string
instructions within the limit emits exactly one `TaskEvent` per returned
instruction, in the order returned, and resets `attemptNumber` to 0. -/
theorem task_events_in_order (cfg : TaskConfig) (attempt : Nat) (inp : RoundInput)
    (d : Rat) (active : List String) (limit : Rat) (xs : List JsValue)
    (hd : inp.delayResult attempt = .ok d)
    (ha : inp.activeResult cfg.name = .ok active)
    (hskip : ¬ (active.length : Rat) ≥ cfg.concurrency)
    (hl : inp.limitResult cfg.concurrency active = .ok limit)
    (hint : limit.isInt = true)
    (hs : inp.scheduleResult ⟨active, cfg.concurrency, limit, cfg.name⟩ = .ok (.arr xs))
    (hstr : xs.all JsValue.isString = true)
    (hlen : (xs.length : Rat) ≤ limit)
    (hne : xs ≠ []) :
    runRound cfg attempt inp =
      .completed ((extractStrings xs).map fun s => Event.task cfg.name s)
        [⟨active, cfg.concurrency, limit, cfg.name⟩] 0 ∧
      (extractStrings xs).length = xs.length := by
  have h0 : 0 ≤ limit := le_trans (by positivity) hlen
  have hlenx := (extractStrings_of_all_strings xs hstr).1
  have hv : validateTaskInstructions cfg.name limit (.arr xs) = ([], extractStrings xs) := by
    simp [validateTaskInstructions, not_lt.mpr hlen, hstr]
  have hpos : (extractStrings xs).length > 0 := by
    rw [hlenx]
    exact List.length_pos.mpr hne
  refine ⟨?_, hlenx⟩
  unfold runRound
  rw [hd]
  dsimp only
  rw [ha]
  dsimp only
  rw [if_neg hskip, hl]
  dsimp only
  rw [if_neg (not_lt.mpr h0), if_neg (by simp [hint]), hs]
  dsimp only
  rw [hv]
  simp [hpos]

/-- C9 witness (spec scenario C): `schedule` returns `['a','b']` with
limit 2; exactly two `TaskEvent`s, `'a'` then `'b'`, and `attemptNumber`
resets to 0. -/
theorem task_events_in_order_witness :
    runRound ⟨"foo", 2⟩ 7 scenarioCInput =
      .completed [Event.task "foo" "a", Event.task "foo" "b"] [⟨[], 2, 2, "foo"⟩] 0 ∧
      (extractStrings [.vstr "a", .vstr "b"]).length = 2 :=
  (task_events_in_order ⟨"foo", 2⟩ 7 scenarioCInput 10 [] 2 [.vstr "a", .vstr "b"]
    rfl rfl (by decide) rfl (by decide) rfl (by decide) (by decide) (by decide))

/-! ## Registration (construction-time validation)

The registration loop of `createPlanton`: for each input task, in order, it
checks the name against the already-registered tasks (throwing
`DuplicateTaskNameError` with the existing task's name), applies the
concurrency default and checks `concurrency < 1` (throwing
`InvalidTaskConfigurationNameError`), rejects an empty name, and then
immediately spawns the task's polling loop and pushes the record.  A throw
aborts `createPlanton`, but the loops of previously registered tasks have
already been spawned; the error therefore carries the list of tasks whose
loops are already running. -/

/-- A task descriptor as passed to `createPlanton` (only the fields
registration inspects). -/
structure TaskInput where
  name : String
  concurrency : Option Rat
deriving DecidableEq, Repr

/-- The construction-time errors `createPlanton` can throw. -/
inductive RegError where
  | duplicateTaskName (duplicateTaskName : String)
  | invalidTaskConfiguration (taskName : String) (message : String)
  | unexpectedState (message : String)
deriving DecidableEq, Repr

/-- A registered task record whose polling loop has been spawned
(`attemptNumber` starts at 0). -/
structure RegisteredTask where
  name : String
  concurrency : Rat
  attemptNumber : Nat
deriving DecidableEq, Repr

/-- The registration fold of `createPlanton`.  On a throw the error is
paired with the tasks already registered at that point — their loops are
already running and nothing stops them. -/
def registerGo : List TaskInput → List RegisteredTask →
    Except (RegError × List RegisteredTask) (List RegisteredTask)
  | [], acc => .ok acc
  | t :: rest, acc =>
    match acc.find? (fun e => e.name == t.name) with
    | some existing => .error (.duplicateTaskName existing.name, acc)
    | none =>
      let concurrency := t.concurrency.getD 1
      if concurrency < 1 then
        .error (.invalidTaskConfiguration t.name "Task concurrency must be greater than 0.",
          acc)
      else if t.name = "" then
        .error (.unexpectedState "Task name cannot be empty.", acc)
      else
        registerGo rest (acc ++ [⟨t.name, concurrency, 0⟩])

/-- Registration of a full task list, starting from no registered tasks. -/
def registerTasks (inputs : List TaskInput) :
    Except (RegError × List RegisteredTask) (List RegisteredTask) :=
  registerGo inputs []

/-- What each construction error says about the input that produced it. -/
def regErrorDescribes (e : RegError) (inputs : List TaskInput)
    (acc : List RegisteredTask) : Prop :=
  match e with
  | .duplicateTaskName n =>
      n ∈ acc.map (fun r => r.name) ∧ ∃ t ∈ inputs, t.name = n
  | .invalidTaskConfiguration n msg =>
      msg = "Task concurrency must be greater than 0." ∧
        ∃ t ∈ inputs, t.name = n ∧ t.concurrency.getD 1 < 1
  | .unexpectedState msg =>
      msg = "Task name cannot be empty." ∧ ∃ t ∈ inputs, t.name = ""

theorem registerGo_ok_props (inputs : List TaskInput) :
    ∀ acc regs, registerGo inputs acc = .ok regs →
      (∀ t ∈ inputs, t.name ∉ acc.map (fun r => r.name) ∧
          1 ≤ t.concurrency.getD 1 ∧ t.name ≠ "") ∧
        List.Pairwise (fun a b => a.name ≠ b.name) inputs := by
  induction inputs with
  | nil => intro acc regs _; exact ⟨by simp, List.Pairwise.nil⟩
  | cons t rest ih =>
    intro acc regs h
    unfold registerGo at h
    cases hfind : acc.find? (fun e => e.name == t.name) with
    | some existing => rw [hfind] at h; exact absurd h (by simp)
    | none =>
      rw [hfind] at h
      dsimp only at h
      by_cases hconc : t.concurrency.getD 1 < 1
      · rw [if_pos hconc] at h; exact absurd h (by simp)
      · rw [if_neg hconc] at h
        by_cases hname : t.name = ""
        · rw [if_pos hname] at h; exact absurd h (by simp)
        · rw [if_neg hname] at h
          obtain ⟨hall, hpw⟩ := ih _ regs h
          have hnotin : t.name ∉ acc.map (fun r => r.name) := by
            intro hmem
            rcases List.mem_map.mp hmem with ⟨a, hmema, ha⟩
            have := List.find?_eq_none.mp hfind a hmema
            simp [ha] at this
          refine ⟨?_, ?_⟩
          · intro x hx
            rcases List.mem_cons.mp hx with rfl | hx
            · exact ⟨hnotin, not_lt.mp hconc, hname⟩
            · have ⟨h1, h2, h3⟩ := hall x hx
              refine ⟨fun hmem => h1 ?_, h2, h3⟩
              rw [List.map_append]
              exact List.mem_append_left _ hmem
          · refine List.Pairwise.cons ?_ hpw
            intro r hr
            have h1 := (hall r hr).1
            intro heq
            apply h1
            rw [List.map_append, heq]
            simp

theorem registerGo_error_desc (inputs : List TaskInput) :
    ∀ acc e acc', (∀ r ∈ acc, r.attemptNumber = 0) →
      registerGo inputs acc = .error (e, acc') →
      regErrorDescribes e inputs acc' ∧ ∀ r ∈ acc', r.attemptNumber = 0 := by
  induction inputs with
  | nil => intro acc e acc' _ h; exact absurd h (by simp [registerGo])
  | cons t rest ih =>
    intro acc e acc' hacc h
    unfold registerGo at h
    cases hfind : acc.find? (fun e => e.name == t.name) with
    | some existing =>
      rw [hfind] at h
      simp only [Except.error.injEq, Prod.mk.injEq] at h
      obtain ⟨rfl, rfl⟩ := h
      have hmem := List.mem_of_find?_eq_some hfind
      have hpred := List.find?_some hfind
      have hname : existing.name = t.name := by simpa using hpred
      refine ⟨⟨List.mem_map.mpr ⟨existing, hmem, rfl⟩, t, List.mem_cons_self t rest, hname.symm⟩,
        hacc⟩
    | none =>
      rw [hfind] at h
      dsimp only at h
      by_cases hconc : t.concurrency.getD 1 < 1
      · rw [if_pos hconc] at h
        simp only [Except.error.injEq, Prod.mk.injEq] at h
        obtain ⟨rfl, rfl⟩ := h
        exact ⟨⟨rfl, t, List.mem_cons_self t rest, rfl, hconc⟩, hacc⟩
      · rw [if_neg hconc] at h
        by_cases hname : t.name = ""
        · rw [if_pos hname] at h
          simp only [Except.error.injEq, Prod.mk.injEq] at h
          obtain ⟨rfl, rfl⟩ := h
          exact ⟨⟨rfl, t, List.mem_cons_self t rest, hname⟩, hacc⟩
        · rw [if_neg hname] at h
          have hacc' : ∀ r ∈ acc ++ [(⟨t.name, t.concurrency.getD 1, 0⟩ : RegisteredTask)],
              r.attemptNumber = 0 := by
            intro r hr
            rcases List.mem_append.mp hr with hr | hr
            · exact hacc r hr
            · simp at hr; rw [hr]
          obtain ⟨hdesc, h0⟩ := ih _ e acc' hacc' h
          refine ⟨?_, h0⟩
          cases e with
          | duplicateTaskName n =>
            exact ⟨hdesc.1, hdesc.2.choose, List.mem_cons_of_mem t hdesc.2.choose_spec.1,
              hdesc.2.choose_spec.2⟩
          | invalidTaskConfiguration n msg =>
            exact ⟨hdesc.1, hdesc.2.choose, List.mem_cons_of_mem t hdesc.2.choose_spec.1,
              hdesc.2.choose_spec.2⟩
          | unexpectedState msg =>
            exact ⟨hdesc.1, hdesc.2.choose, List.mem_cons_of_mem t hdesc.2.choose_spec.1,
              hdesc.2.choose_spec.2⟩

/-- C6 counterexample: constructing with two descriptors both named `"a"`
throws `DuplicateTaskNameError("a")`, but at that point the first task has
already been registered and its polling loop spawned — the started-task
list is nonempty and nothing ever stops that loop, so "no task (including
those listed earlier in the input) remains registered or polling" is
false. -/
theorem registration_cex :
    registerTasks [⟨"a", some 1⟩, ⟨"a", some 1⟩] =
      .error (.duplicateTaskName "a", [⟨"a", 1, 0⟩]) ∧
      ([(⟨"a", 1, 0⟩ : RegisteredTask)] : List RegisteredTask) ≠ [] :=
  ⟨rfl, by decide⟩

/-- C6 (amended): a duplicate name, a concurrency below 1, or an empty
name makes construction throw synchronously; the thrown error identifies
the offending descriptor (`DuplicateTaskNameError` carries the duplicated
name, `InvalidTaskConfigurationNameError` the task name and message); at
the moment of the throw no registered task has executed a round
(`attemptNumber` is still 0 for all of them) — but registration is NOT
all-or-nothing: the error leaves the earlier descriptors registered with
their loops already spawned and polling. -/
theorem registration_validation (inputs : List TaskInput) :
    ((¬ List.Pairwise (fun a b => a.name ≠ b.name) inputs ∨
        (∃ t ∈ inputs, t.concurrency.getD 1 < 1) ∨ (∃ t ∈ inputs, t.name = "")) →
      ∃ e acc, registerTasks inputs = .error (e, acc)) ∧
    (∀ e acc, registerTasks inputs = .error (e, acc) →
      regErrorDescribes e inputs acc ∧ ∀ r ∈ acc, r.attemptNumber = 0) := by
  constructor
  · intro hbad
    cases hreg : registerTasks inputs with
    | error p => exact ⟨p.1, p.2, rfl⟩
    | ok regs =>
      exfalso
      obtain ⟨hall, hpw⟩ := registerGo_ok_props inputs [] regs hreg
      rcases hbad with h | ⟨t, ht, hc⟩ | ⟨t, ht, hn⟩
      · exact h hpw
      · exact absurd (hall t ht).2.1 (not_le.mpr hc)
      · exact (hall t ht).2.2 hn
  · intro e acc h
    exact registerGo_error_desc inputs [] e acc (by simp) h

/-- C6 witness: the registration theorem applied to the duplicate-name
input `[{name: "a"}, {name: "a"}]`. -/
theorem registration_validation_witness :
    ∃ e acc, registerTasks [⟨"a", some 1⟩, ⟨"a", some 1⟩] = .error (e, acc) :=
  (registration_validation [⟨"a", some 1⟩, ⟨"a", some 1⟩]).1 (Or.inl (by decide))

/-! ## Termination protocol

A small-step model of one task's polling loop together with its
`terminate` closure.  The loop's program points are the `await`
suspensions of the source; `terminate` sets `active := false` and clears
the pending delay (`delayPromise.clear()`), and the deferred termination
promise (`resolved`) is resolved exactly when the `while (active)` loop
exits — the crash path (uncaught collaborator exception) never resolves
it.  Faithfully to the source, there is no `active` check between the
active-instruction fetch and the `schedule` call, so a `schedule` call may
still start after `terminate()` was *called* — but never after the
termination promise has *resolved*. -/

/-- Program points of the loop body. -/
inductive Phase where
  | computingDelay
  | delaying
  | fetching
  | limiting
  | scheduling
  | emitting
  | exited
  | crashedLoop
deriving DecidableEq, Repr, Fintype

/-- One task's loop state: current program point, the `active` flag set by
`terminate`, whether `delayPromise.clear()` has been called, and whether
`deferredTermination` has been resolved. -/
structure LoopState where
  phase : Phase
  active : Bool
  delayCancelled : Bool
  resolved : Bool
deriving DecidableEq, Repr, Fintype

/-- The state in which a freshly spawned loop starts. -/
def initLoop : LoopState := ⟨.computingDelay, true, false, false⟩

/-- Environment events driving the loop: a `terminate()` call, or the
completion of one of the loop's `await`s (with the environment choosing
whether the collaborator threw, whether the delay was zero, whether the
concurrency check skips, whether the limit was valid). -/
inductive Label where
  | terminateCall
  | delayComputed (throws : Bool) (zero : Bool)
  | delayElapsed
  | fetched (throws : Bool) (skip : Bool)
  | limited (throws : Bool) (valid : Bool)
  | scheduled
  | emitted
deriving DecidableEq, Repr, Fintype

/-- Loop exit: `deferredTermination.resolve()` runs right after the
`while` loop. -/
def exitLoop (s : LoopState) : LoopState := { s with phase := .exited, resolved := true }

/-- Control returning to the `while (active)` condition (after a
`continue` or a completed round): if still active, the next round begins
with its `calculateDelay` call, otherwise the loop exits. -/
def whileCheck (s : LoopState) : LoopState :=
  if s.active then { s with phase := .computingDelay } else exitLoop s

/-- The post-delay point `if (!active) break`: termination signalled during
the wait exits the loop; otherwise control falls through to the
`getActiveTaskInstructions` fetch of the same round. -/
def postDelay (s : LoopState) : LoopState :=
  if s.active then { s with phase := .fetching } else exitLoop s

/-- The transition function.  A label that is not enabled in the current
phase stutters.  `terminateCall` mirrors the returned closure: it sets
`active = false` and clears the pending delay, in every phase, and leaves
the phase alone. -/
def step (s : LoopState) (l : Label) : LoopState :=
  match l with
  | .terminateCall => { s with active := false, delayCancelled := true }
  | .delayComputed throws zero =>
    if s.phase = .computingDelay then
      if throws then { s with phase := .crashedLoop }
      else if zero then postDelay s
      else { s with phase := .delaying }
    else s
  | .delayElapsed =>
    if s.phase = .delaying then postDelay s else s
  | .fetched throws skip =>
    if s.phase = .fetching then
      if throws then { s with phase := .crashedLoop }
      else if skip then whileCheck s
      else { s with phase := .limiting }
    else s
  | .limited throws valid =>
    if s.phase = .limiting then
      if throws then { s with phase := .crashedLoop }
      else if valid then { s with phase := .scheduling }
      else whileCheck s
    else s
  | .scheduled => if s.phase = .scheduling then { s with phase := .emitting } else s
  | .emitted => if s.phase = .emitting then whileCheck s else s

/-- Run the loop under a sequence of environment events. -/
def run (s : LoopState) : List Label → LoopState
  | [] => s
  | l :: ls => run (step s l) ls

/-- `planton.terminate()`'s promise (the `Promise.all` over every task's
deferred termination promise) is resolved exactly when every task's
deferred is resolved. -/
def plantonTerminateResolved (ss : List LoopState) : Bool :=
  ss.all fun s => s.resolved

theorem step_exited_absorbing :
    ∀ (s : LoopState) (l : Label), s.phase = .exited →
      (step s l).phase = .exited ∧ (step s l).resolved = s.resolved := by decide

theorem step_crashed_absorbing :
    ∀ (s : LoopState) (l : Label), s.phase = .crashedLoop →
      (step s l).phase = .crashedLoop ∧ (step s l).resolved = s.resolved := by decide

theorem step_resolved_inv :
    ∀ (s : LoopState) (l : Label), (s.resolved = true → s.phase = .exited) →
      ((step s l).resolved = true → (step s l).phase = .exited) := by decide

theorem run_exited (ls : List Label) :
    ∀ s : LoopState, s.phase = .exited →
      (run s ls).phase = .exited ∧ (run s ls).resolved = s.resolved := by
  induction ls with
  | nil => intro s h; exact ⟨h, rfl⟩
  | cons l ls ih =>
    intro s h
    obtain ⟨h1, h2⟩ := step_exited_absorbing s l h
    obtain ⟨h3, h4⟩ := ih (step s l) h1
    exact ⟨h3, h4.trans h2⟩

theorem run_crashed (ls : List Label) :
    ∀ s : LoopState, s.phase = .crashedLoop →
      (run s ls).phase = .crashedLoop ∧ (run s ls).resolved = s.resolved := by
  induction ls with
  | nil => intro s h; exact ⟨h, rfl⟩
  | cons l ls ih =>
    intro s h
    obtain ⟨h1, h2⟩ := step_crashed_absorbing s l h
    obtain ⟨h3, h4⟩ := ih (step s l) h1
    exact ⟨h3, h4.trans h2⟩

theorem run_resolved_inv (ls : List Label) :
    ∀ s : LoopState, (s.resolved = true → s.phase = .exited) →
      ((run s ls).resolved = true → (run s ls).phase = .exited) := by
  induction ls with
  | nil => intro s h; exact h
  | cons l ls ih => intro s h; exact ih (step s l) (step_resolved_inv s l h)

/-- Stepping the loop of task `i` in a joint multi-task state; tasks at
other indices are untouched (each loop owns its state exclusively). -/
def stepAt : List LoopState → Nat → Label → List LoopState
  | [], _, _ => []
  | s :: ss, 0, l => step s l :: ss
  | s :: ss, Nat.succ i, l => s :: stepAt ss i l

/-- C7: the termination protocol.  The termination promise of a task is
resolved only when its loop has fully exited; a loop that is inside an
in-flight `schedule` call is not yet resolved (the call completes before
resolution); once resolved, the loop stays exited and never starts another
`schedule` call; `planton.terminate()`'s promise resolves only when every
task's loop has exited; and `terminate()` itself sets `active := false`
and cancels the pending delay (`delayPromise.clear()`) rather than waiting
it out. -/
theorem terminate_resolution (ls : List Label) :
    ((run initLoop ls).resolved = true → (run initLoop ls).phase = .exited) ∧
      ((run initLoop ls).phase = .scheduling ∨ (run initLoop ls).phase = .fetching →
        (run initLoop ls).resolved = false) ∧
      ((run initLoop ls).resolved = true →
        ∀ more, (run (run initLoop ls) more).phase = .exited ∧
          (run (run initLoop ls) more).phase ≠ .scheduling) ∧
      (∀ traces : List (List Label),
        plantonTerminateResolved (traces.map fun tr => run initLoop tr) = true →
        ∀ tr ∈ traces, (run initLoop tr).phase = .exited) ∧
      (∀ s : LoopState, step s .terminateCall =
        { s with active := false, delayCancelled := true }) := by
  have hinv : (run initLoop ls).resolved = true → (run initLoop ls).phase = .exited :=
    run_resolved_inv ls initLoop (by intro h; exact absurd h (by decide))
  refine ⟨hinv, ?_, ?_, ?_, fun s => rfl⟩
  · intro hphase
    cases hres : (run initLoop ls).resolved with
    | false => rfl
    | true =>
      rcases hphase with hphase | hphase <;>
        (rw [hinv hres] at hphase; exact absurd hphase (by decide))
  · intro hres more
    have hexit := hinv hres
    have h := (run_exited more (run initLoop ls) hexit).1
    exact ⟨h, by rw [h]; decide⟩
  · intro traces hall tr htr
    have := List.all_eq_true.mp hall (run initLoop tr)
      (List.mem_map.mpr ⟨tr, htr, rfl⟩)
    exact run_resolved_inv tr initLoop (by intro h; exact absurd h (by decide)) this

/-- C7 witness, at two concrete traces: one that runs a round up to an
in-flight `schedule` call (zero delay, fetch completes without skipping,
valid limit) — the termination promise is not yet resolved there — and one
in which `terminate()` is called first and the already-running
`calculateDelay` then returns a zero delay, so the loop exits and the
termination promise resolves. -/
theorem terminate_resolution_witness :
    (run initLoop [Label.delayComputed false true, Label.fetched false false,
        Label.limited false true]).phase = Phase.scheduling ∧
      (run initLoop [Label.delayComputed false true, Label.fetched false false,
        Label.limited false true]).resolved = false ∧
      (run initLoop [Label.terminateCall, Label.delayComputed false true]).resolved = true ∧
      (run initLoop [Label.terminateCall, Label.delayComputed false true]).phase =
        Phase.exited :=
  ⟨by decide,
    (terminate_resolution [Label.delayComputed false true, Label.fetched false false,
      Label.limited false true]).2.1 (Or.inl (by decide)),
    by decide,
    (terminate_resolution [Label.terminateCall, Label.delayComputed false true]).1
      (by decide)⟩

/-- C8: calling `terminate()` twice has the same effect as calling it
once (the second call sets flags that are already set and clears an
already-cleared delay), and every subsequent behaviour of the loop is
identical — the per-task closure also returns the same
`deferredTermination.promise` on every call, here represented by the
unchanged `resolved` field observed by both calls. -/
theorem terminate_idempotent :
    ∀ s : LoopState,
      step (step s .terminateCall) .terminateCall = step s .terminateCall ∧
      ∀ ls : List Label, run (step (step s .terminateCall) .terminateCall) ls =
        run (step s .terminateCall) ls := by
  have h : ∀ s : LoopState,
      step (step s .terminateCall) .terminateCall = step s .terminateCall := by decide
  intro s
  exact ⟨h s, fun ls => by rw [h s]⟩

/-- A round whose `calculateDelay` throws. -/
def delayThrowInput : RoundInput :=
  ⟨fun _ => .error (.external 7), fun _ => .ok [], fun _ _ => .ok 1,
   fun _ => .ok (.arr [])⟩

/-- C10: an error thrown by `calculateDelay`, `getActiveTaskInstructions`
or `calculateLimit` is not caught: the round crashes with that error, no
event (in particular no `ErrorEvent`) is emitted in that round or ever
after, and no further round runs; a crashed loop never reaches `exited`,
so its termination deferred is never resolved and `planton.terminate()`'s
promise never resolves; and a step of one task's loop leaves every other
task's state untouched. -/
theorem uncaught_collaborator_error (cfg : TaskConfig) (attempt : Nat) (inp : RoundInput)
    (rest : List RoundInput) (e : JsError) :
    ((inp.delayResult attempt = .error e ∨
        (∃ d, inp.delayResult attempt = .ok d ∧ inp.activeResult cfg.name = .error e) ∨
        (∃ d active, inp.delayResult attempt = .ok d ∧
          inp.activeResult cfg.name = .ok active ∧
          ¬ (active.length : Rat) ≥ cfg.concurrency ∧
          inp.limitResult cfg.concurrency active = .error e)) →
      runRound cfg attempt inp = .crashed e ∧
        runRounds cfg attempt (inp :: rest) = ⟨[], attempt, some e⟩) ∧
      (∀ (s : LoopState) (ls : List Label), s.phase = .crashedLoop →
        (run s ls).phase = .crashedLoop ∧ (run s ls).resolved = s.resolved) ∧
      (∀ ss : List LoopState, (∃ s ∈ ss, s.resolved = false) →
        plantonTerminateResolved ss = false) ∧
      (∀ (ss : List LoopState) (i j : Nat) (l : Label), j ≠ i →
        (stepAt ss i l)[j]? = ss[j]?) := by
  refine ⟨?_, fun s ls h => run_crashed ls s h, ?_, ?_⟩
  · intro hcrash
    have h1 : runRound cfg attempt inp = .crashed e := by
      rcases hcrash with hd | ⟨d, hd, ha⟩ | ⟨d, active, hd, ha, hskip, hl⟩
      · unfold runRound
        rw [hd]
      · unfold runRound
        rw [hd]
        dsimp only
        rw [ha]
      · unfold runRound
        rw [hd]
        dsimp only
        rw [ha]
        dsimp only
        rw [if_neg hskip, hl]
    exact ⟨h1, by simp [runRounds, h1]⟩
  · intro ss ⟨s, hmem, hres⟩
    unfold plantonTerminateResolved
    rw [List.all_eq_false]
    exact ⟨s, hmem, by simp [hres]⟩
  · intro ss i j l hne
    induction ss generalizing i j with
    | nil => cases i <;> cases j <;> rfl
    | cons s ss ih =>
      cases i with
      | zero =>
        cases j with
        | zero => exact absurd rfl hne
        | succ j => simp [stepAt]
      | succ i =>
        cases j with
        | zero => simp [stepAt]
        | succ j =>
          simp only [stepAt, List.getElem?_cons_succ]
          exact ih i j (by omega)

/-- C10 witness: a concrete round whose `calculateDelay` throws an opaque
error (tag 7): the loop crashes with it, emitting nothing. -/
theorem uncaught_collaborator_error_witness :
    runRound ⟨"foo", 1⟩ 0 delayThrowInput = .crashed (.external 7) ∧
      runRounds ⟨"foo", 1⟩ 0 [delayThrowInput] = ⟨[], 0, some (.external 7)⟩ :=
  (uncaught_collaborator_error ⟨"foo", 1⟩ 0 delayThrowInput [] (.external 7)).1
    (Or.inl rfl)

end Planton
